import Mathlib

/- Verification of the wal-g concurrent WAL archival core.

This file shallowly embeds the code of `bguploader.go` and `upload.go`
(package walg) and proves properties of the embedding:

  * Go strings are Lean `String`s (a wrapper around `List Char` here);
    the few Go standard-library string functions the code uses
    (`strings.HasSuffix`, `strings.TrimSuffix`, `strings.Trim`,
    `filepath.Join` on clean relative operands) are re-implemented.
  * Go `int32` counters are modelled as `Int`; the counters involved stay
    far below the 32-bit range (they count goroutines and uploaded
    segments, capped at 1024), so wrap-around is not observable.
  * The `BgUploader` daemon is modelled as a labelled transition system.
    `scanOnce` holds `u.mutex` for its whole body, so it is one atomic
    step; each upload worker's post-upload actions are split into the
    separate atomic steps the Go code performs outside the mutex
    (`totalUploaded++`, `scanOnce`, `parallelWorkers--`, `running.Done()`),
    and `Stop` is split into its spin-wait observation, its guarded store
    of `maxParallelWorkers = 0`, and its return after `running.Wait()`.
-/

namespace WalG

/-- Go `strings.HasSuffix s suf`. -/
def goHasSuffix (s suf : String) : Bool :=
  List.isSuffixOf suf.data s.data

/-- Go `strings.TrimSuffix s suf`: drops `suf` from the end of `s` when present. -/
def goTrimSuffix (s suf : String) : String :=
  if goHasSuffix s suf then String.mk (s.data.take (s.data.length - suf.data.length)) else s

/-- Go `strings.Trim s "\""`: removes every leading and trailing quote character. -/
def goTrimQuotes (s : String) : String :=
  String.mk (((s.data.dropWhile (fun c => c == '"')).reverse.dropWhile (fun c => c == '"')).reverse)

/-- Go `filepath.Join a b` for the clean, nonempty, relative operands used by
the daemon (no trailing slashes, no dot segments), where it is plain
slash-concatenation. -/
def goPathJoin (a b : String) : String := a ++ "/" ++ b

/-- Whether an `Except` value is the error constructor. -/
def isExceptError {e a : Type} : Except e a → Bool
  | Except.error _ => true
  | Except.ok _ => false

/- ----------------------------------------------------------------------
Configure (upload.go lines 137-150): the server-side-encryption check
  if (serverSideEncryption == "aws:kms") == (sseKmsKeyId == "") ->
    fatal configuration error.
---------------------------------------------------------------------- -/

/-- The boolean condition of upload.go line 148 under which `Configure`
returns the fatal `WALG_S3_SSE_KMS_ID must be set iff using aws:kms
encryption` error. -/
def kmsConfigCheckFails (serverSideEncryption sseKmsKeyId : String) : Bool :=
  (serverSideEncryption == "aws:kms") == (sseKmsKeyId == "")

/-- The KMS-consistency fragment of `Configure`: the only statement of
`Configure` that inspects `WALG_S3_SSE` together with `WALG_S3_SSE_KMS_ID`. -/
def configureKmsCheck (serverSideEncryption sseKmsKeyId : String) : Except String Unit :=
  if kmsConfigCheckFails serverSideEncryption sseKmsKeyId then
    Except.error "Configure: WALG_S3_SSE_KMS_ID must be set iff using aws:kms encryption"
  else Except.ok ()

/- ----------------------------------------------------------------------
S3TarBall.StartUpload (upload.go lines 210-246): writer composition.
The returned io.WriteCloser is
  armed crypter:   Lz4CascadeClose2{lz4.NewWriter(wc), wc, pw}  with wc = crypter.Encrypt(pw)
  unarmed crypter: Lz4CascadeClose{lz4.NewWriter(pw), pw}
so bytes written to the result pass through lz4, then (when armed) the
encryptor, then reach the pipe writer pw.
---------------------------------------------------------------------- -/

/-- A chain of io.Writer stages ending at the upload pipe's write end. -/
inductive StageWriter : Type
  | pipeEnd : StageWriter
  | lz4Stage (sink : StageWriter) : StageWriter
  | encryptStage (sink : StageWriter) : StageWriter
deriving DecidableEq, Repr

/-- The writer chain built by `S3TarBall.StartUpload` as a function of
`crypter.IsUsed()` (upload.go lines 235-245). -/
def startUploadChain (crypterIsUsed : Bool) : StageWriter :=
  if crypterIsUsed then StageWriter.lz4Stage (StageWriter.encryptStage StageWriter.pipeEnd)
  else StageWriter.lz4Stage StageWriter.pipeEnd

/-- Stream semantics of a writer chain: the bytes that reach the pipe when
`bs` is written at the top, with the compressor and encryptor abstracted as
stream transforms. -/
def bytesReachingPipe (compressBytes encryptBytes : List Nat → List Nat) :
    StageWriter → List Nat → List Nat
  | StageWriter.pipeEnd, bs => bs
  | StageWriter.lz4Stage sink, bs =>
      bytesReachingPipe compressBytes encryptBytes sink (compressBytes bs)
  | StageWriter.encryptStage sink, bs =>
      bytesReachingPipe compressBytes encryptBytes sink (encryptBytes bs)

/- ----------------------------------------------------------------------
TarUploader.UploadWal (upload.go lines 250-301): the verification block.
After tu.Finish(), when verify is set the code compares the md5 sum
accumulated by the md5Reader wrapped around the bytes handed to the
uploader with the object's ETag (quotes trimmed); every failure path calls
log.Fatalf, which terminates the archiving command.
---------------------------------------------------------------------- -/

/-- Outcome of the tail of `TarUploader.UploadWal`: either a `log.Fatalf`
call (process exit) or the normal `return p, err`. -/
inductive WalUploadOutcome : Type
  | fatalExit (msg : String) : WalUploadOutcome
  | completed (remotePath : String) (uploadErr : Option String) : WalUploadOutcome
deriving DecidableEq, Repr

/-- The verify block of `UploadWal` (upload.go lines 279-299).  `localSum` is
the hex md5 the `md5Reader` computed over the bytes the uploader consumed;
`eTagResult` is the result of `a.GetETag()` (an error, a nil ETag, or the
ETag string). -/
def uploadWalVerifyStep (remotePath : String) (uploadErr : Option String) (verify : Bool)
    (localSum : String) (eTagResult : Except String (Option String)) : WalUploadOutcome :=
  if verify then
    match eTagResult with
    | Except.error e => WalUploadOutcome.fatalExit ("Unable to verify WAL " ++ e)
    | Except.ok none => WalUploadOutcome.fatalExit "Unable to verify WAL: nil ETag "
    | Except.ok (some eTag) =>
        if localSum ≠ goTrimQuotes eTag then
          WalUploadOutcome.fatalExit
            ("WAL verification failed: md5 " ++ localSum ++ " ETag " ++ goTrimQuotes eTag)
        else WalUploadOutcome.completed remotePath uploadErr
  else WalUploadOutcome.completed remotePath uploadErr

/- ----------------------------------------------------------------------
NextWALFileName.  Only its test, TestNextWALFileName, is among the source
files; the implementation lives elsewhere in the repository.  The model
below is written from the specification (SegmentName arithmetic: a name is
exactly 24 hex characters split as timeline / log number / segment number;
incrementing the segment number wraps at its fixed maximum 0xFF into the
log number; overflowing the log number's own ceiling 0xFFFFFFFF fails;
malformed input fails with a FormatError) and is checked against every
vector of TestNextWALFileName.
---------------------------------------------------------------------- -/

/-- Value of one hex digit, accepting both cases like Go's `strconv.ParseUint`
with base 16; `none` for a non-hex character. -/
def hexCharVal (c : Char) : Option Nat :=
  if 48 ≤ c.toNat ∧ c.toNat ≤ 57 then some (c.toNat - 48)
  else if 97 ≤ c.toNat ∧ c.toNat ≤ 102 then some (c.toNat - 87)
  else if 65 ≤ c.toNat ∧ c.toNat ≤ 70 then some (c.toNat - 55)
  else none

/-- Big-endian hex parse with accumulator; `none` as soon as a non-hex
character appears. -/
def parseHexAcc : Nat → List Char → Option Nat
  | acc, [] => some acc
  | acc, c :: cs =>
    match hexCharVal c with
    | none => none
    | some d => parseHexAcc (16 * acc + d) cs

/-- Upper-case hex digit for a value below 16. -/
def hexDigitChar (n : Nat) : Char :=
  if n < 10 then Char.ofNat (48 + n) else Char.ofNat (55 + n)

/-- The digits `hexChars k m`: the `k` low-order hex digits of `m`, zero padded,
most significant first (Go's `%08X` for `k = 8` and `m < 16^8`). -/
def hexChars : Nat → Nat → List Char
  | 0, _ => []
  | k + 1, m => hexChars k (m / 16) ++ [hexDigitChar (m % 16)]

/-- Error type for malformed segment names, per the spec's error taxonomy. -/
structure FormatError : Type where
  msg : String
deriving DecidableEq, Repr

/-- Successor of a parsed (timeline, log number, segment number) triple:
the segment number wraps at its fixed maximum 0xFF into the log number,
whose own ceiling 0xFFFFFFFF must not overflow; a segment component above
the maximum is malformed. -/
def nextFromParts (tli logId segNo : Nat) : Except FormatError (List Char) :=
  if segNo < 255 then
    Except.ok (hexChars 8 tli ++ (hexChars 8 logId ++ hexChars 8 (segNo + 1)))
  else if segNo = 255 then
    if logId < 4294967295 then
      Except.ok (hexChars 8 tli ++ (hexChars 8 (logId + 1) ++ hexChars 8 0))
    else Except.error { msg := "NextWALFileName: log number overflow" }
  else Except.error { msg := "NextWALFileName: segment number out of range" }

/-- Core of `NextWALFileName` on the character list: parse the three fixed-width hex
components (the name must be exactly 24 hex characters) and take the
successor. -/
def nextWALCore (cs : List Char) : Except FormatError (List Char) :=
  if cs.length = 24 then
    match parseHexAcc 0 (cs.take 8), parseHexAcc 0 ((cs.drop 8).take 8),
        parseHexAcc 0 (cs.drop 16) with
    | some tli, some logId, some segNo => nextFromParts tli logId segNo
    | _, _, _ => Except.error { msg := "NextWALFileName: name contains a non-hex character" }
  else Except.error { msg := "NextWALFileName: name must be exactly 24 characters" }

/-- Modelled from the spec: the implementation of `NextWALFileName` is not
among the source files (only `TestNextWALFileName` is).  Written from the
spec's SegmentName arithmetic and checked against every vector of
`TestNextWALFileName`. -/
def NextWALFileName (name : String) : Except FormatError String :=
  match nextWALCore name.data with
  | Except.ok cs => Except.ok (String.mk cs)
  | Except.error e => Except.error e

/- ----------------------------------------------------------------------
BgUploader (bguploader.go).  Shared state: the `started` set (a Go map
used as a set of marker filenames), the atomic counters
`parallelWorkers`, `maxParallelWorkers`, `totalUploaded`, and the
`running` wait-group counter.  The model splits each in-flight worker's
post-upload actions into the four separate atomic steps the code
performs (`totalUploaded++`, `scanOnce`, `parallelWorkers--`,
`running.Done()`), tracking how many workers sit before each step in
`wStageA` .. `wStageD`.  `Stop` contributes three steps: the spin-wait's
successful load of `parallelWorkers == 0` (`stopSawZero`), the store
`maxParallelWorkers = 0` under the mutex (`stopStored`), and the return
after `running.Wait()` (`stopReturned`).
---------------------------------------------------------------------- -/

/-- Marker suffix `.ready` (bguploader.go line 73). -/
def readySuffixStr : String := ".ready"

/-- Status directory name `archive_status` (bguploader.go line 74). -/
def archiveStatusStr : String := "archive_status"

/-- Marker suffix `.done` (bguploader.go line 75). -/
def doneSuffixStr : String := ".done"

/-- The shared state of one `BgUploader`, plus bookkeeping for the
program counters of in-flight workers and of the one `Stop` call. -/
structure BgState : Type where
  dir : String
  started : List String
  parallelWorkers : Int
  maxParallelWorkers : Int
  totalUploaded : Int
  runningWG : Nat
  wStageA : Nat
  wStageB : Nat
  wStageC : Nat
  wStageD : Nat
  stopSawZero : Bool
  stopStored : Bool
  stopReturned : Bool
deriving DecidableEq, Repr

/-- Lines 112-114 of bguploader.go: `parallelWorkers >= maxParallelWorkers`. -/
def haveNoSlots (st : BgState) : Bool :=
  decide (st.maxParallelWorkers ≤ st.parallelWorkers)

/-- Lines 108-110 of bguploader.go: `maxParallelWorkers > 0 && totalUploaded < 1024`. -/
def shouldKeepScanning (st : BgState) : Bool :=
  decide (0 < st.maxParallelWorkers) && decide (st.totalUploaded < 1024)

/-- Lines 101-103 of bguploader.go: `running.Add(1)`, `parallelWorkers++` and
`go u.Upload(f)`; the new worker will eventually reach its first shared-state
action, so it is counted in `wStageA`. -/
def dispatchWorker (st : BgState) : BgState :=
  { st with runningWG := st.runningWG + 1,
            parallelWorkers := st.parallelWorkers + 1,
            wStageA := st.wStageA + 1 }

/-- The loop of `scanOnce` (bguploader.go lines 87-105) over the directory
listing, run while holding `u.mutex`: stop at `haveNoSlots`; skip names
without the `.ready` suffix and names already in `started`; otherwise insert
the name into `started` and, if `shouldKeepScanning`, dispatch a worker.
Returns the new state together with the names dispatched, in order. -/
def scanFiles : BgState → List String → BgState × List String
  | st, [] => (st, [])
  | st, f :: rest =>
    if haveNoSlots st then (st, [])
    else if ¬ goHasSuffix f readySuffixStr then scanFiles st rest
    else if st.started.contains f then scanFiles st rest
    else
      let stSeen := { st with started := f :: st.started }
      if shouldKeepScanning stSeen then
        let res := scanFiles (dispatchWorker stSeen) rest
        (res.1, f :: res.2)
      else scanFiles stSeen rest

/-- Line 128 of bguploader.go together with the worker's move to its next
action: `atomic.AddInt32(&u.totalUploaded, 1)`. -/
def workerIncTotal (st : BgState) : BgState :=
  { st with wStageA := st.wStageA - 1, wStageB := st.wStageB + 1,
            totalUploaded := st.totalUploaded + 1 }

/-- The worker's program-counter move past its own `scanOnce` call
(bguploader.go line 130); the scan itself is applied by the step relation. -/
def workerAfterScan (st : BgState) : BgState :=
  { st with wStageB := st.wStageB - 1, wStageC := st.wStageC + 1 }

/-- Line 131 of bguploader.go: `atomic.AddInt32(&u.parallelWorkers, -1)`. -/
def workerDecCount (st : BgState) : BgState :=
  { st with wStageC := st.wStageC - 1, wStageD := st.wStageD + 1,
            parallelWorkers := st.parallelWorkers - 1 }

/-- Line 133 of bguploader.go: `u.running.Done()`. -/
def workerSignalDone (st : BgState) : BgState :=
  { st with wStageD := st.wStageD - 1, runningWG := st.runningWG - 1 }

/-- One atomic step of the daemon, with the dispatch history carried next to
the state: `scanTrigger` is a full mutex-guarded `scanOnce` (the one spawned
by `Start` or any later trigger) with `files` the directory listing it read;
`scanListFailed` is a `scanOnce` whose `ioutil.ReadDir` failed (logged,
state unchanged); the four `worker*` steps are an in-flight worker's atomic
actions after its upload; the three `stop*` steps are `Stop`'s observation
of `parallelWorkers == 0`, its store of `maxParallelWorkers = 0`, and its
return once `running.Wait()` sees a drained wait-group. -/
inductive BgStep : BgState × List String → BgState × List String → Prop
  | scanTrigger (st : BgState) (hist files : List String) :
      BgStep (st, hist) ((scanFiles st files).1, hist ++ (scanFiles st files).2)
  | scanListFailed (st : BgState) (hist : List String) :
      BgStep (st, hist) (st, hist)
  | workerTotal (st : BgState) (hist : List String) (h : 0 < st.wStageA) :
      BgStep (st, hist) (workerIncTotal st, hist)
  | workerRescan (st : BgState) (hist files : List String) (h : 0 < st.wStageB) :
      BgStep (st, hist)
        ((scanFiles (workerAfterScan st) files).1,
          hist ++ (scanFiles (workerAfterScan st) files).2)
  | workerDecrement (st : BgState) (hist : List String) (h : 0 < st.wStageC) :
      BgStep (st, hist) (workerDecCount st, hist)
  | workerFinished (st : BgState) (hist : List String) (h : 0 < st.wStageD) :
      BgStep (st, hist) (workerSignalDone st, hist)
  | stopObservesZero (st : BgState) (hist : List String) (h : st.parallelWorkers = 0) :
      BgStep (st, hist) ({ st with stopSawZero := true }, hist)
  | stopStoresZero (st : BgState) (hist : List String) (h : st.stopSawZero = true) :
      BgStep (st, hist) ({ st with stopStored := true, maxParallelWorkers := 0 }, hist)
  | stopReturns (st : BgState) (hist : List String) (h1 : st.stopStored = true)
      (h2 : st.runningWG = 0) :
      BgStep (st, hist) ({ st with stopReturned := true }, hist)

/-- The state right after `Start(walFilePath, maxW, ...)` with `maxW >= 1`
(bguploader.go lines 44-59): the `started` set is seeded with the marker name
of the segment that triggered the daemon, all counters are zero, and the
first `scanOnce` goroutine has been spawned but not yet run. -/
def initBgState (walDir walBase : String) (maxW : Int) : BgState :=
  { dir := walDir, started := [walBase ++ readySuffixStr], parallelWorkers := 0,
    maxParallelWorkers := maxW, totalUploaded := 0, runningWG := 0,
    wStageA := 0, wStageB := 0, wStageC := 0, wStageD := 0,
    stopSawZero := false, stopStored := false, stopReturned := false }

/-- Reachability of a (state, dispatch history) pair from the post-`Start`
state. -/
def BgReach (walDir walBase : String) (maxW : Int) (x : BgState × List String) : Prop :=
  Relation.ReflTransGen BgStep (initBgState walDir walBase maxW, []) x

/-- The inductive invariant: the dispatch history has no duplicates and is
contained in `started`; `parallelWorkers` counts the workers that have not
yet decremented it and `runningWG` those that have not yet signalled;
`maxParallelWorkers` is the `Start` argument until `Stop` stores 0; and
before that store `parallelWorkers` never exceeds it. -/
def BgInv (maxW : Int) (x : BgState × List String) : Prop :=
  x.2.Nodup
  ∧ (∀ n ∈ x.2, n ∈ x.1.started)
  ∧ x.1.parallelWorkers = (x.1.wStageA : Int) + x.1.wStageB + x.1.wStageC
  ∧ x.1.runningWG = x.1.wStageA + x.1.wStageB + x.1.wStageC + x.1.wStageD
  ∧ x.1.maxParallelWorkers = (if x.1.stopStored then 0 else maxW)
  ∧ (x.1.stopReturned = true → x.1.stopStored = true ∧ x.1.runningWG = 0)
  ∧ (x.1.stopStored = false → x.1.parallelWorkers ≤ maxW)

/-- The body of `BgUploader.Upload` (bguploader.go lines 117-134) after the
`UploadWALFile` call has returned, as one straight-line function: the
`.ready` marker is renamed to `.done` (a failed rename is only logged:
`renameOk = false` changes nothing but the logging), then `totalUploaded`
is incremented, another scan cycle runs over the listing `fs`, the
running-worker count is decremented and the wait-group is signalled.
Modelled from the spec for the upload call itself, which is not among the
source files: an upload failure terminates the archiving command (spec §7
sends exhausted transport failures and integrity failures to a fatal exit),
so this body runs exactly when the upload succeeded. -/
def bgWorkerBody (st : BgState) (markerName : String) (renameOk : Bool) (fs : List String) :
    BgState × List String × (String × String × Bool) :=
  let walfilename := goTrimSuffix markerName readySuffixStr
  let readyPath := goPathJoin (goPathJoin st.dir archiveStatusStr) markerName
  let donePath := goPathJoin (goPathJoin st.dir archiveStatusStr)
    (walfilename ++ doneSuffixStr)
  let st1 := { st with totalUploaded := st.totalUploaded + 1 }
  let res := scanFiles st1 fs
  let st2 := { res.1 with parallelWorkers := res.1.parallelWorkers - 1 }
  let st3 := { st2 with runningWG := st2.runningWG - 1 }
  (st3, res.2, (readyPath, donePath, !renameOk))

/-- Lines 87-105 of bguploader.go insert a reached marker into `started`
before the `shouldKeepScanning` dispatch check; this function is that
insertion behaviour on its own: the `started` list a scan leaves behind
when no dispatch happens. -/
def seenInsert (acc : List String) : List String → List String
  | [] => acc
  | f :: rest =>
    if goHasSuffix f readySuffixStr && ! acc.contains f then seenInsert (f :: acc) rest
    else seenInsert acc rest

/- Concrete states for the counterexample and witness traces. -/

/-- A daemon just started on segment `000000010000000000000051`
with one worker slot, after `Stop`'s spin loop has already observed
`parallelWorkers == 0` (the initial scan goroutine has not yet run - the
race the code comments call jumping to the closing door). -/
def c3Mid : BgState :=
  { initBgState "/pg/wal" "000000010000000000000051" 1 with stopSawZero := true }

/-- The listing the delayed initial scan reads: one fresh ready marker. -/
def c3Files : List String := ["0000000100000000000000AA.ready"]

/-- State `c3Mid` after the delayed initial scan dispatched a worker for the
fresh marker. -/
def c3AfterScan : BgState :=
  { c3Mid with started := "0000000100000000000000AA.ready" :: c3Mid.started,
               runningWG := 1, parallelWorkers := 1, wStageA := 1 }

/-- State `c3AfterScan` after `Stop` acquired the mutex and stored
`maxParallelWorkers = 0` while the worker is still running. -/
def c3Final : BgState :=
  { c3AfterScan with stopStored := true, maxParallelWorkers := 0 }

/-- A daemon on which `Stop` has already stored `maxParallelWorkers = 0`
before the initial scan goroutine ran at all. -/
def c10Mid : BgState :=
  { initBgState "/pg/wal" "000000010000000000000052" 1 with stopSawZero := true }

/-- State `c10Mid` after the store of `Stop`. -/
def c10Stop : BgState :=
  { c10Mid with stopStored := true, maxParallelWorkers := 0 }

/-- A state with the lifetime cap reached and a free worker slot, used to
exercise the cap branch of the scan. -/
def capState : BgState :=
  { initBgState "/pg/wal" "000000010000000000000053" 2 with totalUploaded := 1024 }

/-- A freshly started daemon whose `Stop` spin loop has observed
`parallelWorkers == 0`. -/
def c4Mid : BgState :=
  { initBgState "/pg/wal" "000000010000000000000060" 1 with stopSawZero := true }

/-- State `c4Mid` after `Stop` stored `maxParallelWorkers = 0`. -/
def c4Stop : BgState :=
  { c4Mid with stopStored := true, maxParallelWorkers := 0 }

/- ----------------------------------------------------------------------
Theorems for the pure upload.go fragments.
---------------------------------------------------------------------- -/

/-- C8: `Configure` fails with the fatal KMS configuration error exactly when
the server-side-encryption mode `aws:kms` is configured without a KMS key
identifier, or a key identifier is configured without the `aws:kms` mode;
when both or neither are configured the check passes. -/
theorem configure_kms_check_iff (sse keyId : String) :
    isExceptError (configureKmsCheck sse keyId) = true ↔
      ((sse = "aws:kms" ∧ keyId = "") ∨ (sse ≠ "aws:kms" ∧ keyId ≠ "")) := by
  by_cases h1 : sse = "aws:kms" <;> by_cases h2 : keyId = "" <;>
    simp [configureKmsCheck, kmsConfigCheckFails, isExceptError, h1, h2]

/-- C5: when the crypter is armed, every byte reaching the pipe from the
WriteCloser returned by `StartUpload` is `encrypt(compress(source))`; when it
is not armed, the bytes reaching the pipe are `compress(source)`. -/
theorem startUpload_pipe_composition (compressBytes encryptBytes : List Nat → List Nat)
    (source : List Nat) :
    bytesReachingPipe compressBytes encryptBytes (startUploadChain true) source
        = encryptBytes (compressBytes source)
    ∧ bytesReachingPipe compressBytes encryptBytes (startUploadChain false) source
        = compressBytes source :=
  ⟨rfl, rfl⟩

/-- C2: for a WAL upload with `verify = true`, a mismatch between the locally
computed md5 of the bytes handed to the uploader and the (quote-trimmed) ETag
reported by storage makes `UploadWal` call `log.Fatalf` - it never reaches the
successful `return`; the failure paths for an ETag fetch error and a nil ETag
are likewise fatal.  No retry exists on this path: the comparison is made once,
after `tu.Finish()`. -/
theorem uploadWal_verify_mismatch_fatal (remotePath localSum eTag : String)
    (uploadErr : Option String) (hMismatch : localSum ≠ goTrimQuotes eTag) :
    uploadWalVerifyStep remotePath uploadErr true localSum (Except.ok (some eTag))
        = WalUploadOutcome.fatalExit
            ("WAL verification failed: md5 " ++ localSum ++ " ETag " ++ goTrimQuotes eTag)
    ∧ (∀ p u, uploadWalVerifyStep remotePath uploadErr true localSum (Except.ok (some eTag))
        ≠ WalUploadOutcome.completed p u)
    ∧ (∀ e, uploadWalVerifyStep remotePath uploadErr true localSum (Except.error e)
        = WalUploadOutcome.fatalExit ("Unable to verify WAL " ++ e))
    ∧ uploadWalVerifyStep remotePath uploadErr true localSum (Except.ok none)
        = WalUploadOutcome.fatalExit "Unable to verify WAL: nil ETag " := by
  refine ⟨?_, ?_, fun e => rfl, rfl⟩
  · simp [uploadWalVerifyStep, hMismatch]
  · intro p u
    simp [uploadWalVerifyStep, hMismatch]

/-- Witness for C2 at a concrete mismatched checksum. -/
theorem uploadWal_verify_mismatch_fatal_witness :
    "aaaa" ≠ goTrimQuotes "\"bbbb\""
    ∧ (∀ p u, uploadWalVerifyStep "server/wal_005/x.lz4" none true "aaaa"
        (Except.ok (some "\"bbbb\"")) ≠ WalUploadOutcome.completed p u) :=
  ⟨by decide,
   (uploadWal_verify_mismatch_fatal "server/wal_005/x.lz4" "aaaa" "\"bbbb\"" none
      (by decide)).2.1⟩

/- Supporting lemmas for the SegmentName arithmetic. -/

theorem hexChars_length (k : Nat) : ∀ m : Nat, (hexChars k m).length = k := by
  induction k with
  | zero => intro m; rfl
  | succ k ih => intro m; simp [hexChars, List.length_append, ih]

theorem hexCharVal_hexDigitChar : ∀ d : Nat, d < 16 → hexCharVal (hexDigitChar d) = some d := by
  decide

theorem parseHexAcc_append_some (l1 : List Char) :
    ∀ (a b : Nat) (l2 : List Char), parseHexAcc a l1 = some b →
      parseHexAcc a (l1 ++ l2) = parseHexAcc b l2 := by
  induction l1 with
  | nil =>
    intro a b l2 h
    simp only [parseHexAcc] at h
    cases h
    rfl
  | cons c cs ih =>
    intro a b l2 h
    cases hv : hexCharVal c with
    | none =>
      simp only [parseHexAcc, hv] at h
      exact Option.noConfusion h
    | some d =>
      simp only [parseHexAcc, hv] at h
      simpa only [List.cons_append, parseHexAcc, hv] using ih (16 * a + d) b l2 h

theorem parseHexAcc_none_of_mem (l : List Char) :
    ∀ (a : Nat) (c : Char), c ∈ l → hexCharVal c = none → parseHexAcc a l = none := by
  induction l with
  | nil => intro a c hc; cases hc
  | cons d ds ih =>
    intro a c hc hval
    rcases List.mem_cons.mp hc with h | h
    · subst h
      simp [parseHexAcc, hval]
    · cases hv : hexCharVal d with
      | none => simp [parseHexAcc, hv]
      | some v => simpa only [parseHexAcc, hv] using ih (16 * a + v) c h hval

theorem parseHexAcc_hexChars (k : Nat) :
    ∀ a m : Nat, parseHexAcc a (hexChars k m) = some (a * 16 ^ k + m % 16 ^ k) := by
  induction k with
  | zero =>
    intro a m
    simp [hexChars, parseHexAcc, Nat.mod_one]
  | succ k ih =>
    intro a m
    have hd : parseHexAcc (a * 16 ^ k + m / 16 % 16 ^ k) [hexDigitChar (m % 16)]
        = some (16 * (a * 16 ^ k + m / 16 % 16 ^ k) + m % 16) := by
      simp only [parseHexAcc, hexCharVal_hexDigitChar (m % 16) (Nat.mod_lt m (by norm_num))]
    have happ := parseHexAcc_append_some (hexChars k (m / 16)) a
      (a * 16 ^ k + m / 16 % 16 ^ k) [hexDigitChar (m % 16)] (ih a (m / 16))
    rw [hexChars, happ, hd]
    congr 1
    rw [pow_succ, mul_comm (16 ^ k) 16, Nat.mod_mul]
    ring

theorem parseHex8_roundtrip (m : Nat) (h : m < 16 ^ 8) :
    parseHexAcc 0 (hexChars 8 m) = some m := by
  rw [parseHexAcc_hexChars 8 0 m, Nat.zero_mul, Nat.zero_add, Nat.mod_eq_of_lt h]

theorem nextWALCore_err_of_length (cs : List Char) (h : cs.length ≠ 24) :
    isExceptError (nextWALCore cs) = true := by
  simp [nextWALCore, h, isExceptError]

theorem nextWALCore_err_of_nonhex (cs : List Char) (c : Char) (hc : c ∈ cs)
    (hval : hexCharVal c = none) : isExceptError (nextWALCore cs) = true := by
  by_cases hlen : cs.length = 24
  · have h0 : c ∈ cs.take 8 ++ cs.drop 8 := by rw [List.take_append_drop]; exact hc
    have hsplit : c ∈ cs.take 8 ∨ c ∈ (cs.drop 8).take 8 ∨ c ∈ cs.drop 16 := by
      rcases List.mem_append.mp h0 with h | h
      · exact Or.inl h
      · have h1 : c ∈ (cs.drop 8).take 8 ++ (cs.drop 8).drop 8 := by
          rw [List.take_append_drop]; exact h
        rcases List.mem_append.mp h1 with h2 | h2
        · exact Or.inr (Or.inl h2)
        · refine Or.inr (Or.inr ?_)
          have hdd : (cs.drop 8).drop 8 = cs.drop 16 := by
            rw [List.drop_drop]
          rwa [hdd] at h2
    simp only [nextWALCore, if_pos hlen]
    rcases hsplit with h | h | h
    · rw [parseHexAcc_none_of_mem (cs.take 8) 0 c h hval]
      cases hB : parseHexAcc 0 ((cs.drop 8).take 8) <;> cases hC : parseHexAcc 0 (cs.drop 16) <;> rfl
    · rw [parseHexAcc_none_of_mem ((cs.drop 8).take 8) 0 c h hval]
      cases hA : parseHexAcc 0 (cs.take 8) <;> cases hC : parseHexAcc 0 (cs.drop 16) <;> rfl
    · rw [parseHexAcc_none_of_mem (cs.drop 16) 0 c h hval]
      cases hA : parseHexAcc 0 (cs.take 8) <;> cases hB : parseHexAcc 0 ((cs.drop 8).take 8) <;> rfl
  · exact nextWALCore_err_of_length cs hlen

theorem nextWALCore_parts (tli logId segNo : Nat) (ht : tli < 16 ^ 8)
    (hl : logId < 16 ^ 8) (hs : segNo < 16 ^ 8) :
    nextWALCore (hexChars 8 tli ++ (hexChars 8 logId ++ hexChars 8 segNo))
      = nextFromParts tli logId segNo := by
  have hlen : (hexChars 8 tli ++ (hexChars 8 logId ++ hexChars 8 segNo)).length = 24 := by
    simp [List.length_append, hexChars_length]
  have h1 : (hexChars 8 tli ++ (hexChars 8 logId ++ hexChars 8 segNo)).take 8 = hexChars 8 tli :=
    List.take_left' (hexChars_length 8 tli)
  have h2 : (hexChars 8 tli ++ (hexChars 8 logId ++ hexChars 8 segNo)).drop 8
      = hexChars 8 logId ++ hexChars 8 segNo :=
    List.drop_left' (hexChars_length 8 tli)
  have h3 : (hexChars 8 logId ++ hexChars 8 segNo).take 8 = hexChars 8 logId :=
    List.take_left' (hexChars_length 8 logId)
  have h4 : (hexChars 8 tli ++ (hexChars 8 logId ++ hexChars 8 segNo)).drop 16
      = hexChars 8 segNo := by
    rw [← List.append_assoc]
    exact List.drop_left' (by simp [List.length_append, hexChars_length])
  simp only [nextWALCore, if_pos hlen, h1, h2, h3, h4,
    parseHex8_roundtrip tli ht, parseHex8_roundtrip logId hl, parseHex8_roundtrip segNo hs]

theorem nextWAL_of_core_ok (cs cs2 : List Char) (h : nextWALCore cs = Except.ok cs2) :
    NextWALFileName (String.mk cs) = Except.ok (String.mk cs2) := by
  unfold NextWALFileName
  rw [show (String.mk cs).data = cs from rfl, h]

theorem nextWAL_err_iff_core (s : String) :
    isExceptError (NextWALFileName s) = isExceptError (nextWALCore s.data) := by
  unfold NextWALFileName
  cases nextWALCore s.data <;> rfl

/-- C9: `NextWALFileName` increments the segment counter of a 24-hex-character
segment name; at the segment counter's fixed maximum (name ending `FF`) it
resets the segment component to zero and carries once into the log-file
component (`0000000100000001000000FF` yields `000000010000000200000000`); it
fails with a `FormatError` for every input that is not exactly 24 characters,
for every input containing a non-hex character, and when the increment would
overflow the log-file counter's ceiling.  The first seven clauses are exactly
the vectors of `TestNextWALFileName` in the sources. -/
theorem nextWALFileName_spec :
    NextWALFileName "000000010000000000000051" = Except.ok "000000010000000000000052"
    ∧ NextWALFileName "00000001000000000000005F" = Except.ok "000000010000000000000060"
    ∧ NextWALFileName "0000000100000001000000FF" = Except.ok "000000010000000200000000"
    ∧ isExceptError (NextWALFileName "0000000100000001000001FF") = true
    ∧ isExceptError (NextWALFileName "00000001000ZZ001000000FF") = true
    ∧ isExceptError (NextWALFileName "00000001000001000000FF") = true
    ∧ isExceptError (NextWALFileName "asdfasdf") = true
    ∧ (∀ s : String, s.data.length ≠ 24 → isExceptError (NextWALFileName s) = true)
    ∧ (∀ (s : String) (c : Char), c ∈ s.data → hexCharVal c = none →
        isExceptError (NextWALFileName s) = true)
    ∧ (∀ tli logId segNo : Nat, tli < 16 ^ 8 → logId < 16 ^ 8 → segNo < 255 →
        NextWALFileName (String.mk (hexChars 8 tli ++ (hexChars 8 logId ++ hexChars 8 segNo)))
          = Except.ok
              (String.mk (hexChars 8 tli ++ (hexChars 8 logId ++ hexChars 8 (segNo + 1)))))
    ∧ (∀ tli logId : Nat, tli < 16 ^ 8 → logId < 4294967295 →
        NextWALFileName (String.mk (hexChars 8 tli ++ (hexChars 8 logId ++ hexChars 8 255)))
          = Except.ok (String.mk (hexChars 8 tli ++ (hexChars 8 (logId + 1) ++ hexChars 8 0))))
    ∧ (∀ tli : Nat, tli < 16 ^ 8 →
        isExceptError (NextWALFileName
          (String.mk (hexChars 8 tli ++ (hexChars 8 4294967295 ++ hexChars 8 255)))) = true) := by
  refine ⟨by rfl, by rfl, by rfl, by rfl, by rfl, by rfl, by rfl,
    ?_, ?_, ?_, ?_, ?_⟩
  · intro s h
    rw [nextWAL_err_iff_core]
    exact nextWALCore_err_of_length s.data h
  · intro s c hc hval
    rw [nextWAL_err_iff_core]
    exact nextWALCore_err_of_nonhex s.data c hc hval
  · intro tli logId segNo ht hl hs
    refine nextWAL_of_core_ok _ _ ?_
    rw [nextWALCore_parts tli logId segNo ht hl (lt_trans hs (by norm_num))]
    simp [nextFromParts, hs]
  · intro tli logId ht hl
    refine nextWAL_of_core_ok _ _ ?_
    rw [nextWALCore_parts tli logId 255 ht (lt_trans hl (by norm_num)) (by norm_num)]
    simp [nextFromParts, hl]
  · intro tli ht
    rw [nextWAL_err_iff_core]
    rw [show (String.mk (hexChars 8 tli ++ (hexChars 8 4294967295 ++ hexChars 8 255))).data
        = hexChars 8 tli ++ (hexChars 8 4294967295 ++ hexChars 8 255) from rfl]
    rw [nextWALCore_parts tli 4294967295 255 ht (by norm_num) (by norm_num)]
    rfl

/-- Witness for C9 at concrete inputs: a 3-character name fails, and a
concrete in-range name has its segment component incremented. -/
theorem nextWALFileName_spec_witness :
    isExceptError (NextWALFileName "123") = true
    ∧ NextWALFileName (String.mk (hexChars 8 1 ++ (hexChars 8 1 ++ hexChars 8 81)))
        = Except.ok (String.mk (hexChars 8 1 ++ (hexChars 8 1 ++ hexChars 8 82))) :=
  ⟨nextWALFileName_spec.2.2.2.2.2.2.2.1 "123" (by decide),
   nextWALFileName_spec.2.2.2.2.2.2.2.2.2.1 1 1 81 (by norm_num) (by norm_num) (by norm_num)⟩

/- Supporting lemmas for the scan loop. -/

theorem scanFiles_frame (fs : List String) : ∀ st : BgState,
    (scanFiles st fs).1.dir = st.dir
    ∧ (scanFiles st fs).1.totalUploaded = st.totalUploaded
    ∧ (scanFiles st fs).1.maxParallelWorkers = st.maxParallelWorkers
    ∧ (scanFiles st fs).1.wStageB = st.wStageB
    ∧ (scanFiles st fs).1.wStageC = st.wStageC
    ∧ (scanFiles st fs).1.wStageD = st.wStageD
    ∧ (scanFiles st fs).1.stopSawZero = st.stopSawZero
    ∧ (scanFiles st fs).1.stopStored = st.stopStored
    ∧ (scanFiles st fs).1.stopReturned = st.stopReturned
    ∧ (scanFiles st fs).1.parallelWorkers
        = st.parallelWorkers + ((scanFiles st fs).2.length : Int)
    ∧ (scanFiles st fs).1.runningWG = st.runningWG + (scanFiles st fs).2.length
    ∧ (scanFiles st fs).1.wStageA = st.wStageA + (scanFiles st fs).2.length := by
  induction fs with
  | nil =>
    intro st
    refine ⟨rfl, rfl, rfl, rfl, rfl, rfl, rfl, rfl, rfl, ?_, rfl, rfl⟩
    simp [scanFiles]
  | cons f rest ih =>
    intro st
    simp only [scanFiles]
    split
    · refine ⟨rfl, rfl, rfl, rfl, rfl, rfl, rfl, rfl, rfl, ?_, rfl, rfl⟩
      simp
    · split
      · exact ih st
      · split
        · exact ih st
        · split
          · obtain ⟨d, t, m, b, c, e, z, s1, s2, hp, hw, ha⟩ :=
              ih (dispatchWorker { st with started := f :: st.started })
            refine ⟨d, t, m, b, c, e, z, s1, s2, ?_, ?_, ?_⟩
            · rw [hp]; simp [dispatchWorker]; omega
            · rw [hw]; simp [dispatchWorker]; omega
            · rw [ha]; simp [dispatchWorker]; omega
          · exact ih { st with started := f :: st.started }

theorem scanFiles_mem (fs : List String) : ∀ st : BgState,
    (∀ n, n ∈ st.started → n ∈ (scanFiles st fs).1.started)
    ∧ (∀ n, n ∈ (scanFiles st fs).2 → ¬ n ∈ st.started ∧ n ∈ (scanFiles st fs).1.started)
    ∧ (scanFiles st fs).2.Nodup := by
  induction fs with
  | nil =>
    intro st
    exact ⟨fun n h => h, fun n h => absurd h (List.not_mem_nil n), List.nodup_nil⟩
  | cons f rest ih =>
    intro st
    simp only [scanFiles]
    split
    · exact ⟨fun n h => h, fun n h => absurd h (List.not_mem_nil n), List.nodup_nil⟩
    · split
      · exact ih st
      · split
        · exact ih st
        · rename_i hslots hsuf hcont
          have hfnot : ¬ f ∈ st.started := by simpa [List.contains] using hcont
          split
          · obtain ⟨hmono, hdisp, hnd⟩ :=
              ih (dispatchWorker { st with started := f :: st.started })
            refine ⟨?_, ?_, ?_⟩
            · intro n hn
              exact hmono n (List.mem_cons_of_mem f hn)
            · intro n hn
              rcases List.mem_cons.mp hn with h | h
              · subst h
                exact ⟨hfnot, hmono n (List.mem_cons_self n st.started)⟩
              · obtain ⟨hns, hin⟩ := hdisp n h
                exact ⟨fun hmem => hns (List.mem_cons_of_mem f hmem), hin⟩
            · refine List.nodup_cons.mpr ⟨?_, hnd⟩
              intro hf
              exact (hdisp f hf).1 (List.mem_cons_self f st.started)
          · obtain ⟨hmono, hdisp, hnd⟩ := ih { st with started := f :: st.started }
            refine ⟨?_, ?_, hnd⟩
            · intro n hn
              exact hmono n (List.mem_cons_of_mem f hn)
            · intro n hn
              obtain ⟨hns, hin⟩ := hdisp n hn
              exact ⟨fun hmem => hns (List.mem_cons_of_mem f hmem), hin⟩

theorem scanFiles_noSlots (st : BgState) (fs : List String)
    (h : st.maxParallelWorkers ≤ st.parallelWorkers) : scanFiles st fs = (st, []) := by
  cases fs with
  | nil => rfl
  | cons f rest => simp [scanFiles, haveNoSlots, h]

theorem scanFiles_bound (fs : List String) : ∀ st : BgState,
    (scanFiles st fs).1.parallelWorkers ≤ max st.parallelWorkers st.maxParallelWorkers := by
  induction fs with
  | nil => intro st; exact le_max_left _ _
  | cons f rest ih =>
    intro st
    simp only [scanFiles]
    split
    · exact le_max_left _ _
    · split
      · exact ih st
      · split
        · exact ih st
        · split
          · rename_i hslots hsuf hcont hkeep
            have hlt : st.parallelWorkers < st.maxParallelWorkers := by
              have := hslots
              simp only [haveNoSlots, decide_eq_true_eq] at this
              omega
            have hb := ih (dispatchWorker { st with started := f :: st.started })
            have hmax : max (dispatchWorker { st with started := f :: st.started }).parallelWorkers
                (dispatchWorker { st with started := f :: st.started }).maxParallelWorkers
                = st.maxParallelWorkers := by
              simp only [dispatchWorker]
              have : st.parallelWorkers + 1 ≤ st.maxParallelWorkers := by omega
              omega
            rw [hmax] at hb
            exact le_trans hb (le_max_right _ _)
          · exact ih { st with started := f :: st.started }

theorem scanFiles_cap (fs : List String) : ∀ st : BgState, (1024 : Int) ≤ st.totalUploaded →
    (scanFiles st fs).2 = [] := by
  induction fs with
  | nil => intro st _; rfl
  | cons f rest ih =>
    intro st hcap
    simp only [scanFiles]
    split
    · rfl
    · split
      · exact ih st hcap
      · split
        · exact ih st hcap
        · split
          · rename_i hkeep
            exfalso
            simp only [shouldKeepScanning, Bool.and_eq_true, decide_eq_true_eq] at hkeep
            omega
          · exact ih { st with started := f :: st.started } hcap

theorem scanFiles_cap_started (fs : List String) : ∀ st : BgState,
    (1024 : Int) ≤ st.totalUploaded → st.parallelWorkers < st.maxParallelWorkers →
    (scanFiles st fs).1.started = seenInsert st.started fs ∧ (scanFiles st fs).2 = [] := by
  induction fs with
  | nil => intro st _ _; exact ⟨rfl, rfl⟩
  | cons f rest ih =>
    intro st hcap hslots
    have hns : haveNoSlots st = false := by
      simp only [haveNoSlots, decide_eq_false_iff_not]
      omega
    simp only [scanFiles, hns, Bool.false_eq_true, if_false]
    by_cases hsuf : goHasSuffix f readySuffixStr
    · rw [if_neg (by simp [hsuf])]
      by_cases hcont : st.started.contains f
      · have hmem : f ∈ st.started := by simpa [List.contains] using hcont
        rw [if_pos hcont]
        have heq : seenInsert st.started (f :: rest) = seenInsert st.started rest := by
          simp [seenInsert, hmem]
        rw [heq]
        exact ih st hcap hslots
      · have hmem : ¬ f ∈ st.started := by simpa [List.contains] using hcont
        rw [if_neg hcont]
        have hkeep : shouldKeepScanning { st with started := f :: st.started } = false := by
          simp only [shouldKeepScanning, Bool.and_eq_false_iff, decide_eq_false_iff_not]
          right; omega
        rw [if_neg (by simp [hkeep])]
        have heq : seenInsert st.started (f :: rest) = seenInsert (f :: st.started) rest := by
          simp [seenInsert, hsuf, hmem]
        rw [heq]
        exact ih { st with started := f :: st.started } hcap hslots
    · rw [if_pos (by simp [hsuf])]
      have : seenInsert st.started (f :: rest) = seenInsert st.started rest := by
        simp [seenInsert, hsuf]
      rw [this]
      exact ih st hcap hslots

/- Invariant preservation. -/

theorem bgInv_def (maxW : Int) (st : BgState) (hist : List String) :
    BgInv maxW (st, hist) ↔
      (hist.Nodup
      ∧ (∀ n ∈ hist, n ∈ st.started)
      ∧ st.parallelWorkers = (st.wStageA : Int) + st.wStageB + st.wStageC
      ∧ st.runningWG = st.wStageA + st.wStageB + st.wStageC + st.wStageD
      ∧ st.maxParallelWorkers = (if st.stopStored then 0 else maxW)
      ∧ (st.stopReturned = true → st.stopStored = true ∧ st.runningWG = 0)
      ∧ (st.stopStored = false → st.parallelWorkers ≤ maxW)) :=
  Iff.rfl

theorem scanStep_inv (maxW : Int) (st : BgState) (hist files : List String)
    (hinv : BgInv maxW (st, hist)) :
    BgInv maxW ((scanFiles st files).1, hist ++ (scanFiles st files).2) := by
  rw [bgInv_def] at hinv
  obtain ⟨hnd, hmem, hp, hwg, hmax, hret, hbnd⟩ := hinv
  by_cases hsr : st.stopReturned = true
  · obtain ⟨hss, hwg0⟩ := hret hsr
    have hm0 : st.maxParallelWorkers = 0 := by rw [hmax, if_pos hss]
    have hstop : scanFiles st files = (st, []) := by
      refine scanFiles_noSlots st files ?_
      rw [hm0]
      omega
    rw [hstop]
    simp only [List.append_nil]
    exact (bgInv_def maxW st hist).mpr ⟨hnd, hmem, hp, hwg, hmax, hret, hbnd⟩
  · obtain ⟨hdir, htot, hmaxf, hwB, hwC, hwD, hsz, hssf, hsrf, hpf, hwgf, hwAf⟩ :=
      scanFiles_frame files st
    obtain ⟨hmono, hdisp, hndd⟩ := scanFiles_mem files st
    rw [bgInv_def]
    refine ⟨?_, ?_, ?_, ?_, ?_, ?_, ?_⟩
    · refine List.nodup_append.mpr ⟨hnd, hndd, ?_⟩
      intro n hn1 hn2
      exact (hdisp n hn2).1 (hmem n hn1)
    · intro n hn
      rcases List.mem_append.mp hn with h | h
      · exact hmono n (hmem n h)
      · exact (hdisp n h).2
    · rw [hpf, hwAf, hwB, hwC, hp]
      push_cast
      ring
    · rw [hwgf, hwAf, hwB, hwC, hwD, hwg]
      omega
    · rw [hmaxf, hssf]
      exact hmax
    · rw [hsrf]
      intro h
      exact absurd h hsr
    · rw [hssf]
      intro h
      have hmw : st.maxParallelWorkers = maxW := by
        rw [hmax, h]
        rfl
      have hb := scanFiles_bound files st
      rw [hmw, max_eq_right (hbnd h)] at hb
      exact hb

theorem workerAfterScan_inv (maxW : Int) (st : BgState) (hist : List String)
    (h : 0 < st.wStageB) (hinv : BgInv maxW (st, hist)) :
    BgInv maxW (workerAfterScan st, hist) := by
  rw [bgInv_def] at hinv
  obtain ⟨hnd, hmem, hp, hwg, hmax, hret, hbnd⟩ := hinv
  rw [bgInv_def]
  refine ⟨hnd, hmem, ?_, ?_, hmax, hret, hbnd⟩
  · simp only [workerAfterScan]
    omega
  · simp only [workerAfterScan]
    omega

theorem bgStep_inv {maxW : Int} {x y : BgState × List String} (hstep : BgStep x y)
    (hinv : BgInv maxW x) : BgInv maxW y := by
  cases hstep with
  | scanTrigger st hist files => exact scanStep_inv maxW st hist files hinv
  | scanListFailed st hist => exact hinv
  | workerTotal st hist h =>
    rw [bgInv_def] at hinv
    obtain ⟨hnd, hmem, hp, hwg, hmax, hret, hbnd⟩ := hinv
    rw [bgInv_def]
    refine ⟨hnd, hmem, ?_, ?_, hmax, hret, fun hh => hbnd hh⟩
    · simp only [workerIncTotal]
      omega
    · simp only [workerIncTotal]
      omega
  | workerRescan st hist files h =>
    exact scanStep_inv maxW (workerAfterScan st) hist files
      (workerAfterScan_inv maxW st hist h hinv)
  | workerDecrement st hist h =>
    rw [bgInv_def] at hinv
    obtain ⟨hnd, hmem, hp, hwg, hmax, hret, hbnd⟩ := hinv
    rw [bgInv_def]
    refine ⟨hnd, hmem, ?_, ?_, hmax, hret, ?_⟩
    · simp only [workerDecCount]
      omega
    · simp only [workerDecCount]
      omega
    · intro hh
      have := hbnd hh
      simp only [workerDecCount]
      omega
  | workerFinished st hist h =>
    rw [bgInv_def] at hinv
    obtain ⟨hnd, hmem, hp, hwg, hmax, hret, hbnd⟩ := hinv
    rw [bgInv_def]
    refine ⟨hnd, hmem, hp, ?_, hmax, ?_, hbnd⟩
    · simp only [workerSignalDone]
      omega
    · intro hr
      obtain ⟨hss, hwg0⟩ := hret hr
      refine ⟨hss, ?_⟩
      simp only [workerSignalDone]
      omega
  | stopObservesZero st hist h =>
    rw [bgInv_def] at hinv
    obtain ⟨hnd, hmem, hp, hwg, hmax, hret, hbnd⟩ := hinv
    rw [bgInv_def]
    exact ⟨hnd, hmem, hp, hwg, hmax, hret, hbnd⟩
  | stopStoresZero st hist h =>
    rw [bgInv_def] at hinv
    obtain ⟨hnd, hmem, hp, hwg, hmax, hret, hbnd⟩ := hinv
    rw [bgInv_def]
    refine ⟨hnd, hmem, hp, hwg, ?_, ?_, ?_⟩
    · simp
    · intro hr
      exact ⟨rfl, (hret hr).2⟩
    · intro hh
      simp at hh
  | stopReturns st hist h1 h2 =>
    rw [bgInv_def] at hinv
    obtain ⟨hnd, hmem, hp, hwg, hmax, hret, hbnd⟩ := hinv
    rw [bgInv_def]
    exact ⟨hnd, hmem, hp, hwg, hmax, fun _ => ⟨h1, h2⟩, hbnd⟩

theorem bgInv_init (walDir walBase : String) (maxW : Int) (hmax : 1 ≤ maxW) :
    BgInv maxW (initBgState walDir walBase maxW, []) := by
  rw [bgInv_def]
  refine ⟨List.nodup_nil, ?_, ?_, ?_, ?_, ?_, ?_⟩
  all_goals simp [initBgState]
  all_goals omega

theorem bgReach_inv (walDir walBase : String) (maxW : Int) (hmax : 1 ≤ maxW)
    (x : BgState × List String) (hx : BgReach walDir walBase maxW x) : BgInv maxW x := by
  have hx2 : Relation.ReflTransGen BgStep (initBgState walDir walBase maxW, []) x := hx
  clear hx
  induction hx2 with
  | refl => exact bgInv_init walDir walBase maxW hmax
  | tail hab hbc ih => exact bgStep_inv hbc ih

/- Monotonicity along a step and along a trace. -/

theorem bgStep_mono {x y : BgState × List String} (h : BgStep x y) :
    (∀ n ∈ x.1.started, n ∈ y.1.started)
    ∧ (∃ t, y.2 = x.2 ++ t ∧ ∀ n ∈ t, ¬ n ∈ x.1.started)
    ∧ x.1.totalUploaded ≤ y.1.totalUploaded
    ∧ (x.1.stopStored = true → y.1.stopStored = true) := by
  cases h with
  | scanTrigger st hist files =>
    obtain ⟨hmono, hdisp, _⟩ := scanFiles_mem files st
    obtain ⟨_, htot, _, _, _, _, _, hssf, _, _, _, _⟩ := scanFiles_frame files st
    refine ⟨hmono, ⟨(scanFiles st files).2, rfl, fun n hn => (hdisp n hn).1⟩, ?_, ?_⟩
    · exact le_of_eq htot.symm
    · intro hh
      rw [hssf]
      exact hh
  | scanListFailed st hist =>
    exact ⟨fun n hn => hn, ⟨[], by simp, by simp⟩, le_refl _, fun hh => hh⟩
  | workerTotal st hist h =>
    refine ⟨fun n hn => hn, ⟨[], by simp, by simp⟩, ?_, fun hh => hh⟩
    simp only [workerIncTotal]
    omega
  | workerRescan st hist files h =>
    obtain ⟨hmono, hdisp, _⟩ := scanFiles_mem files (workerAfterScan st)
    obtain ⟨_, htot, _, _, _, _, _, hssf, _, _, _, _⟩ :=
      scanFiles_frame files (workerAfterScan st)
    refine ⟨hmono, ⟨(scanFiles (workerAfterScan st) files).2, rfl,
      fun n hn => (hdisp n hn).1⟩, ?_, ?_⟩
    · exact le_of_eq htot.symm
    · intro hh
      rw [hssf]
      exact hh
  | workerDecrement st hist h =>
    exact ⟨fun n hn => hn, ⟨[], by simp, by simp⟩, le_refl _, fun hh => hh⟩
  | workerFinished st hist h =>
    exact ⟨fun n hn => hn, ⟨[], by simp, by simp⟩, le_refl _, fun hh => hh⟩
  | stopObservesZero st hist h =>
    exact ⟨fun n hn => hn, ⟨[], by simp, by simp⟩, le_refl _, fun hh => hh⟩
  | stopStoresZero st hist h =>
    exact ⟨fun n hn => hn, ⟨[], by simp, by simp⟩, le_refl _, fun _ => rfl⟩
  | stopReturns st hist h1 h2 =>
    exact ⟨fun n hn => hn, ⟨[], by simp, by simp⟩, le_refl _, fun hh => hh⟩

theorem bgRT_mono {x y : BgState × List String} (h : Relation.ReflTransGen BgStep x y) :
    (∀ n ∈ x.1.started, n ∈ y.1.started)
    ∧ (∃ t, y.2 = x.2 ++ t ∧ ∀ n ∈ t, ¬ n ∈ x.1.started)
    ∧ x.1.totalUploaded ≤ y.1.totalUploaded
    ∧ (x.1.stopStored = true → y.1.stopStored = true) := by
  induction h with
  | refl => exact ⟨fun n hn => hn, ⟨[], by simp, by simp⟩, le_refl _, fun hh => hh⟩
  | tail hab hbc ih =>
    obtain ⟨m1, ⟨t1, he1, ht1⟩, tot1, ss1⟩ := ih
    obtain ⟨m2, ⟨t2, he2, ht2⟩, tot2, ss2⟩ := bgStep_mono hbc
    refine ⟨fun n hn => m2 n (m1 n hn),
      ⟨t1 ++ t2, by rw [he2, he1, List.append_assoc], ?_⟩,
      le_trans tot1 tot2, fun hh => ss2 (ss1 hh)⟩
    intro n hn
    rcases List.mem_append.mp hn with hh | hh
    · exact ht1 n hh
    · intro hmem
      exact ht2 n hh (m1 n hmem)

/- The lifetime cap and the stop store both freeze the dispatch history. -/

theorem bgStep_cap_frozen {x y : BgState × List String} (h : BgStep x y)
    (hcap : (1024 : Int) ≤ x.1.totalUploaded) : y.2 = x.2 := by
  cases h with
  | scanTrigger st hist files =>
    rw [scanFiles_cap files st hcap]
    simp
  | workerRescan st hist files h =>
    rw [scanFiles_cap files (workerAfterScan st) hcap]
    simp
  | scanListFailed st hist => rfl
  | workerTotal st hist h => rfl
  | workerDecrement st hist h => rfl
  | workerFinished st hist h => rfl
  | stopObservesZero st hist h => rfl
  | stopStoresZero st hist h => rfl
  | stopReturns st hist h1 h2 => rfl

theorem bgRT_cap_frozen {x y : BgState × List String}
    (h : Relation.ReflTransGen BgStep x y) (hcap : (1024 : Int) ≤ x.1.totalUploaded) :
    y.2 = x.2 ∧ (1024 : Int) ≤ y.1.totalUploaded := by
  induction h with
  | refl => exact ⟨rfl, hcap⟩
  | tail hab hbc ih =>
    obtain ⟨he, hc⟩ := ih
    refine ⟨?_, le_trans hc (bgStep_mono hbc).2.2.1⟩
    rw [bgStep_cap_frozen hbc hc, he]

theorem bgStep_stop_frozen {maxW : Int} {x y : BgState × List String} (h : BgStep x y)
    (hinv : BgInv maxW x) (hss : x.1.stopStored = true) : y.2 = x.2 := by
  cases h with
  | scanTrigger st hist files =>
    rw [bgInv_def] at hinv
    obtain ⟨hnd, hmem, hp, hwg, hmax, hret, hbnd⟩ := hinv
    replace hss : st.stopStored = true := hss
    have hm0 : st.maxParallelWorkers = 0 := by rw [hmax, if_pos hss]
    rw [scanFiles_noSlots st files (by omega)]
    simp
  | workerRescan st hist files h =>
    rw [bgInv_def] at hinv
    obtain ⟨hnd, hmem, hp, hwg, hmax, hret, hbnd⟩ := hinv
    replace hss : st.stopStored = true := hss
    have hm0 : st.maxParallelWorkers = 0 := by rw [hmax, if_pos hss]
    rw [scanFiles_noSlots (workerAfterScan st) files (by simp only [workerAfterScan]; omega)]
    simp
  | scanListFailed st hist => rfl
  | workerTotal st hist h => rfl
  | workerDecrement st hist h => rfl
  | workerFinished st hist h => rfl
  | stopObservesZero st hist h => rfl
  | stopStoresZero st hist h => rfl
  | stopReturns st hist h1 h2 => rfl

theorem bgRT_stop_frozen {maxW : Int} {x y : BgState × List String}
    (h : Relation.ReflTransGen BgStep x y) (hinv : BgInv maxW x)
    (hss : x.1.stopStored = true) :
    y.2 = x.2 ∧ BgInv maxW y ∧ y.1.stopStored = true := by
  induction h with
  | refl => exact ⟨rfl, hinv, hss⟩
  | tail hab hbc ih =>
    obtain ⟨he, hib, hsb⟩ := ih
    refine ⟨?_, bgStep_inv hbc hib, (bgStep_mono hbc).2.2.2 hsb⟩
    rw [bgStep_stop_frozen hbc hib hsb, he]

/- ----------------------------------------------------------------------
Claim theorems for the daemon.
---------------------------------------------------------------------- -/

/-- C1: once a marker filename is in the `started` set no second worker is
ever dispatched for it, and over the whole run no filename is dispatched
twice: along every reachable execution the dispatch history is
duplicate-free, and any name already in `started` at some point `x` that
appears in the history later was already in the history at `x`.  The
check-and-insert of `started` is one atomically-guarded step: the whole
`scanOnce` body runs under `u.mutex`, which is why `scanTrigger` is a
single step of the model. -/
theorem bg_no_second_dispatch (walDir walBase : String) (maxW : Int)
    (x y : BgState × List String) (hmax : 1 ≤ maxW)
    (hx : BgReach walDir walBase maxW x)
    (hy : Relation.ReflTransGen BgStep x y) :
    y.2.Nodup ∧ (∀ n, n ∈ x.1.started → n ∈ y.2 → n ∈ x.2) := by
  have hinvy : BgInv maxW y :=
    bgReach_inv walDir walBase maxW hmax y (Relation.ReflTransGen.trans hx hy)
  constructor
  · exact hinvy.1
  · intro n hnx hny
    obtain ⟨m1, ⟨t, he, ht⟩, _, _⟩ := bgRT_mono hy
    rw [he] at hny
    rcases List.mem_append.mp hny with h | h
    · exact h
    · exact absurd hnx (ht n h)

/-- Witness for C1 at the freshly started daemon. -/
theorem bg_no_second_dispatch_witness :
    ([] : List String).Nodup
    ∧ (∀ n, n ∈ (initBgState "/pg/wal" "000000010000000000000051" 1,
          ([] : List String)).1.started
        → n ∈ ([] : List String) → n ∈ ([] : List String)) := by
  exact bg_no_second_dispatch "/pg/wal" "000000010000000000000051" 1
    (initBgState "/pg/wal" "000000010000000000000051" 1, [])
    (initBgState "/pg/wal" "000000010000000000000051" 1, [])
    (by norm_num) Relation.ReflTransGen.refl Relation.ReflTransGen.refl

/-- C3 counterexample: a reachable state in which `parallelWorkers` exceeds
`maxParallelWorkers`.  `Stop`'s spin loop observes `parallelWorkers == 0`
right after `Start` (bguploader.go line 63), the initial `scanOnce`
goroutine then acquires the mutex first and dispatches a worker for a fresh
ready marker (lines 87-105), and only then does `Stop` acquire the mutex
and store `maxParallelWorkers = 0` (line 69) - the race the source comments
call jumping to the closing door.  The final state has one running worker
and `maxParallelWorkers = 0`. -/
theorem bg_worker_bound_counterexample :
    BgReach "/pg/wal" "000000010000000000000051" 1 (c3Final, c3Files)
    ∧ c3Final.maxParallelWorkers < c3Final.parallelWorkers := by
  constructor
  · have s1 : BgStep (initBgState "/pg/wal" "000000010000000000000051" 1, ([] : List String))
        (c3Mid, ([] : List String)) :=
      BgStep.stopObservesZero _ _ rfl
    have hscan : scanFiles c3Mid c3Files = (c3AfterScan, c3Files) := by decide
    have s2 : BgStep (c3Mid, ([] : List String)) (c3AfterScan, c3Files) := by
      have h := BgStep.scanTrigger c3Mid [] c3Files
      rw [hscan] at h
      simpa using h
    have s3 : BgStep (c3AfterScan, c3Files) (c3Final, c3Files) :=
      BgStep.stopStoresZero _ _ rfl
    exact Relation.ReflTransGen.tail (Relation.ReflTransGen.tail
      (Relation.ReflTransGen.tail Relation.ReflTransGen.refl s1) s2) s3
  · decide

/-- C3 (amended): in every reachable state in which `Stop` has not yet
stored `maxParallelWorkers = 0`, the running-worker count never exceeds
`maxParallelWorkers`; and every scan cycle dispatches only while the count
is below the bound, stopping early once it is reached, so a scan never
pushes the count above `max` of its starting count and the bound.  (After
`Stop`'s store the count can exceed the then-zero bound, as the
counterexample shows.) -/
theorem bg_worker_bound_before_stop (walDir walBase : String) (maxW : Int)
    (x : BgState × List String) (hmax : 1 ≤ maxW)
    (hx : BgReach walDir walBase maxW x) (hnostop : x.1.stopStored = false) :
    x.1.parallelWorkers ≤ x.1.maxParallelWorkers
    ∧ ∀ (st : BgState) (fs : List String),
        (scanFiles st fs).1.parallelWorkers ≤ max st.parallelWorkers st.maxParallelWorkers := by
  have hinv := bgReach_inv walDir walBase maxW hmax x hx
  constructor
  · have hb := hinv.2.2.2.2.2.2 hnostop
    have hm := hinv.2.2.2.2.1
    rw [hm]
    simp [hnostop]
    exact hb
  · intro st fs
    exact scanFiles_bound fs st

/-- Witness for the amended C3 at the freshly started daemon. -/
theorem bg_worker_bound_before_stop_witness :
    (initBgState "/pg/wal" "00000001000000000000007A" 1,
        ([] : List String)).1.parallelWorkers
      ≤ (initBgState "/pg/wal" "00000001000000000000007A" 1,
        ([] : List String)).1.maxParallelWorkers := by
  exact (bg_worker_bound_before_stop "/pg/wal" "00000001000000000000007A" 1
    (initBgState "/pg/wal" "00000001000000000000007A" 1, []) (by norm_num)
    Relation.ReflTransGen.refl rfl).1

/-- C4: once `Stop` has stored `maxParallelWorkers = 0`, the bound is 0 and
no scan cycle ever dispatches again - the dispatch history is frozen from
that state on; `Stop` returns only once the wait-group is drained, at which
point the running-worker count is also zero; and the worker steps (the
decrement and the completion signal) stay enabled for claimed workers
regardless of the stop flags - `Stop` drains, it never cancels. -/
theorem bg_stop_drains (walDir walBase : String) (maxW : Int)
    (x : BgState × List String) (hmax : 1 ≤ maxW) (hx : BgReach walDir walBase maxW x) :
    (x.1.stopStored = true →
      x.1.maxParallelWorkers = 0
      ∧ ∀ y, Relation.ReflTransGen BgStep x y →
          y.2 = x.2 ∧ ∀ fs, (scanFiles y.1 fs).2 = [])
    ∧ (x.1.stopReturned = true → x.1.runningWG = 0 ∧ x.1.parallelWorkers = 0)
    ∧ (∀ hist : List String, 0 < x.1.wStageC →
        BgStep (x.1, hist) (workerDecCount x.1, hist))
    ∧ (∀ hist : List String, 0 < x.1.wStageD →
        BgStep (x.1, hist) (workerSignalDone x.1, hist)) := by
  have hinv := bgReach_inv walDir walBase maxW hmax x hx
  refine ⟨?_, ?_, ?_, ?_⟩
  · intro hss
    have hm0 : x.1.maxParallelWorkers = 0 := by
      have hm := hinv.2.2.2.2.1
      rw [hm, if_pos hss]
    refine ⟨hm0, ?_⟩
    intro y hy
    obtain ⟨he, hinvy, hssy⟩ := bgRT_stop_frozen hy hinv hss
    refine ⟨he, ?_⟩
    intro fs
    have hmy : y.1.maxParallelWorkers = 0 := by
      have hm := hinvy.2.2.2.2.1
      rw [hm, if_pos hssy]
    have hpy := hinvy.2.2.1
    rw [scanFiles_noSlots y.1 fs (by rw [hmy]; omega)]
  · intro hr
    obtain ⟨hss, hwg0⟩ := hinv.2.2.2.2.2.1 hr
    refine ⟨hwg0, ?_⟩
    have hwg := hinv.2.2.2.1
    have hp := hinv.2.2.1
    omega
  · intro hist hc
    exact BgStep.workerDecrement x.1 hist hc
  · intro hist hd
    exact BgStep.workerFinished x.1 hist hd

/-- Witness for C4 at a reachable stopped daemon. -/
theorem bg_stop_drains_witness : c4Stop.maxParallelWorkers = 0 := by
  have htrace : BgReach "/pg/wal" "000000010000000000000060" 1 (c4Stop, ([] : List String)) :=
    Relation.ReflTransGen.tail (Relation.ReflTransGen.tail Relation.ReflTransGen.refl
      (BgStep.stopObservesZero _ _ rfl)) (BgStep.stopStoresZero _ _ rfl)
  exact ((bg_stop_drains "/pg/wal" "000000010000000000000060" 1 (c4Stop, []) (by norm_num)
    htrace).1 rfl).1

/-- C6: once the lifetime-uploaded counter has reached 1024 the dispatch
history never grows again (no scan cycle dispatches another worker, and the
counter stays at or above the cap); a scan in that regime still completes
normally - it merely updates `started` and leaves the counter unchanged -
so the cap is a throttle, not an error: the model of `scanOnce` is a total
function and the capped branch is the ordinary `shouldKeepScanning = false`
path, not a failure path. -/
theorem bg_lifetime_cap_halts_dispatch (x y : BgState × List String)
    (hcap : (1024 : Int) ≤ x.1.totalUploaded)
    (hy : Relation.ReflTransGen BgStep x y) :
    y.2 = x.2 ∧ (1024 : Int) ≤ y.1.totalUploaded
    ∧ ∀ fs, (scanFiles y.1 fs).2 = []
        ∧ (scanFiles y.1 fs).1.totalUploaded = y.1.totalUploaded := by
  obtain ⟨he, hc⟩ := bgRT_cap_frozen hy hcap
  refine ⟨he, hc, ?_⟩
  intro fs
  exact ⟨scanFiles_cap fs y.1 hc, (scanFiles_frame fs y.1).2.1⟩

/-- Witness for C6 at a concrete capped state. -/
theorem bg_lifetime_cap_halts_dispatch_witness :
    ([] : List String) = ([] : List String)
    ∧ (1024 : Int) ≤ capState.totalUploaded
    ∧ ∀ fs, (scanFiles capState fs).2 = []
        ∧ (scanFiles capState fs).1.totalUploaded = capState.totalUploaded := by
  exact bg_lifetime_cap_halts_dispatch (capState, []) (capState, [])
    (le_refl (1024 : Int)) Relation.ReflTransGen.refl

/-- C7: after a successful upload the worker renames the segment's `.ready`
marker (under `dir/archive_status`) to `.done`; a failed rename is only
logged - the resulting state is identical whether the rename succeeded or
not; then the worker increments the lifetime-uploaded counter, triggers
another scan cycle (whose dispatches are its dispatches), decrements the
running-worker count and signals its completion on the wait-group. -/
theorem bg_worker_postupload_actions (st : BgState) (markerName : String)
    (renameOk : Bool) (fs : List String) :
    (bgWorkerBody st markerName renameOk fs).2.2.1
        = goPathJoin (goPathJoin st.dir archiveStatusStr) markerName
    ∧ (bgWorkerBody st markerName renameOk fs).2.2.2.1
        = goPathJoin (goPathJoin st.dir archiveStatusStr)
            (goTrimSuffix markerName readySuffixStr ++ doneSuffixStr)
    ∧ (bgWorkerBody st markerName renameOk fs).2.2.2.2 = !renameOk
    ∧ (bgWorkerBody st markerName true fs).1 = (bgWorkerBody st markerName false fs).1
    ∧ (bgWorkerBody st markerName true fs).2.1 = (bgWorkerBody st markerName false fs).2.1
    ∧ (bgWorkerBody st markerName renameOk fs).1.totalUploaded = st.totalUploaded + 1
    ∧ (bgWorkerBody st markerName renameOk fs).2.1
        = (scanFiles { st with totalUploaded := st.totalUploaded + 1 } fs).2
    ∧ (bgWorkerBody st markerName renameOk fs).1.parallelWorkers
        = (scanFiles { st with totalUploaded := st.totalUploaded + 1 } fs).1.parallelWorkers - 1
    ∧ (bgWorkerBody st markerName renameOk fs).1.runningWG
        = (scanFiles { st with totalUploaded := st.totalUploaded + 1 } fs).1.runningWG - 1 := by
  refine ⟨rfl, rfl, rfl, rfl, rfl, ?_, rfl, rfl, rfl⟩
  exact (scanFiles_frame fs { st with totalUploaded := st.totalUploaded + 1 }).2.1

/-- C10 counterexample: in a reachable state in which `Stop` has forced
`maxParallelWorkers` to 0, a scan that lists a fresh ready marker changes
nothing: `haveNoSlots` breaks the loop before the marker is reached, so the
marker is NOT inserted into the seen set (and nothing is dispatched) -
refuting the claim that such markers are marked seen. -/
theorem bg_max_zero_scan_skips_marking :
    BgReach "/pg/wal" "000000010000000000000052" 1 (c10Stop, ([] : List String))
    ∧ scanFiles c10Stop ["0000000100000000000000BB.ready"] = (c10Stop, [])
    ∧ ¬ ("0000000100000000000000BB.ready" ∈ c10Stop.started) := by
  refine ⟨?_, by decide, by decide⟩
  exact Relation.ReflTransGen.tail (Relation.ReflTransGen.tail Relation.ReflTransGen.refl
    (BgStep.stopObservesZero _ _ rfl)) (BgStep.stopStoresZero _ _ rfl)

/-- C10 (amended): markers a scan reaches are inserted into `started`
before the dispatch check, so with the lifetime cap reached and a worker
slot free, a scan marks every ready unseen marker seen, dispatches nothing,
and the dispatch history never grows afterwards (those segments are never
uploaded by this daemon); but when `maxParallelWorkers` is at or below the
running-worker count - in particular when `Stop` forced it to 0 - the scan
stops before reaching any marker and marks nothing seen. -/
theorem bg_cap_marks_seen_without_spawn (st : BgState) (fs hist : List String)
    (hcap : (1024 : Int) ≤ st.totalUploaded) :
    (st.parallelWorkers < st.maxParallelWorkers →
        (scanFiles st fs).1.started = seenInsert st.started fs ∧ (scanFiles st fs).2 = [])
    ∧ (st.maxParallelWorkers ≤ st.parallelWorkers → scanFiles st fs = (st, []))
    ∧ (∀ n ∈ (scanFiles st fs).2, n ∈ (scanFiles st fs).1.started)
    ∧ (∀ y, Relation.ReflTransGen BgStep ((scanFiles st fs).1, hist) y → y.2 = hist) := by
  refine ⟨?_, ?_, ?_, ?_⟩
  · intro h
    exact scanFiles_cap_started fs st hcap h
  · intro h
    exact scanFiles_noSlots st fs h
  · intro n hn
    exact ((scanFiles_mem fs st).2.1 n hn).2
  · intro y hy
    have hcap2 : (1024 : Int) ≤ (scanFiles st fs).1.totalUploaded := by
      rw [(scanFiles_frame fs st).2.1]
      exact hcap
    exact (bgRT_cap_frozen hy hcap2).1

/-- Witness for the amended C10 at a concrete capped state with a free
slot. -/
theorem bg_cap_marks_seen_without_spawn_witness :
    (scanFiles capState ["0000000100000000000000CC.ready"]).1.started
        = seenInsert capState.started ["0000000100000000000000CC.ready"]
    ∧ (scanFiles capState ["0000000100000000000000CC.ready"]).2 = [] := by
  exact (bg_cap_marks_seen_without_spawn capState ["0000000100000000000000CC.ready"] []
    (le_refl (1024 : Int))).1 (by decide)

end WalG
